import Mathlib

/-!
# Taskmate: a verification development of `src/App.js`

The React component `App` keeps three pieces of state that the handlers touch
(`task`, `tasklist`, `editid`) and a fourth (`theme`) that is only persisted.
Handlers read the values captured at render time and call the state setters;
here a handler is a function from the captured state to an `Outcome`: the
state after the setters that ran, and the exception thrown, if any.
-/

namespace Taskmate

/-- A task record `{id, name, time}` as built by the object literals of `handleSubmit`. -/
structure Task where
  id : Int
  name : String
  time : String
  deriving DecidableEq, Repr

/-- The state variables of `App` that the handlers read and write:
`task` (the input text), `tasklist` and `editid`. -/
structure AppState where
  task : String
  tasklist : List Task
  editid : Int
  deriving DecidableEq, Repr

/-- Exceptions of the JavaScript runtime that the modelled code can raise. -/
inductive JsError where
  | TypeError
  deriving DecidableEq, Repr

/-- Result of running an event handler: the state once the handler has
finished or thrown, and the exception it threw, if any. -/
structure Outcome where
  state : AppState
  thrown : Option JsError
  deriving DecidableEq, Repr

/-- The two locale renderings of a `Date` used by the source, as functions of
the instant (milliseconds since the epoch) that `new Date()` captured. -/
structure Locale where
  toLocaleTimeString : Int → String
  toLocaleDateString : Int → String

/-- The template literal of `handleSubmit`: the locale time, a space, the locale date. -/
def timeString (loc : Locale) (date : Int) : String :=
  loc.toLocaleTimeString date ++ " " ++ loc.toLocaleDateString date

/-- The state of `App` when the stored task list is empty:
`useState("")`, `useState([])`, `useState(0)`. -/
def initialState : AppState :=
  { task := "", tasklist := [], editid := 0 }

/-- The state setter `setTask`, called by the input field on every change. -/
def setTask (st : AppState) (text : String) : AppState :=
  { st with task := text }

/-- The callback handed to `tasklist.map` in the edit branch of `handleSubmit`.
It reads `selectedTask.id`, which throws when `find` returned `undefined`. -/
def updateCallback (loc : Locale) (date : Int) (task : String)
    (selectedTask : Option Task) (e : Task) : Except JsError Task :=
  match selectedTask with
  | none => Except.error JsError.TypeError
  | some sel =>
    if e.id = sel.id then
      Except.ok { id := e.id, name := task, time := timeString loc date }
    else
      Except.ok { id := e.id, name := e.name, time := e.time }

/-- The handler `handleSubmit`, run at the instant `date` read by `new Date()`.
A non-zero `editid` is truthy and selects the edit branch; otherwise a
non-empty `task` is truthy and selects the add branch. -/
def handleSubmit (loc : Locale) (date : Int) (st : AppState) : Outcome :=
  if st.editid ≠ 0 then
    let selectedTask := st.tasklist.find? (fun task => decide (task.id = st.editid))
    match st.tasklist.mapM (updateCallback loc date st.task selectedTask) with
    | Except.error err => { state := st, thrown := some err }
    | Except.ok updateTask =>
      { state := { task := "", tasklist := updateTask, editid := 0 }, thrown := none }
  else if st.task ≠ "" then
    { state := { st with
        tasklist := st.tasklist ++
          [{ id := date, name := st.task, time := timeString loc date }],
        task := "" },
      thrown := none }
  else
    { state := st, thrown := none }

/-- The handler `handleEdit`. Reading `selectedTask.name` throws before any
setter runs when `find` returned `undefined`. -/
def handleEdit (st : AppState) (id : Int) : Outcome :=
  match st.tasklist.find? (fun task => decide (task.id = id)) with
  | none => { state := st, thrown := some JsError.TypeError }
  | some selectedTask =>
    { state := { st with task := selectedTask.name, editid := id }, thrown := none }

/-- The handler `handleDelete`. -/
def handleDelete (st : AppState) (id : Int) : Outcome :=
  let updatedTasklist := st.tasklist.filter (fun task => decide (task.id ≠ id))
  { state := { st with tasklist := updatedTasklist }, thrown := none }

/-- JavaScript values denoted by JSON text. Numbers are the integers: the only
numbers the program stores are the `id` fields, which `Date.prototype.getTime`
produces as integral time values. -/
inductive JSValue where
  | null
  | bool (b : Bool)
  | num (n : Int)
  | str (s : String)
  | arr (items : List JSValue)
  | obj (members : List (String × JSValue))

/-- Truthiness of a value, as tested by the `||` of the two `useState` initialisers. -/
def JSValue.truthy : JSValue → Bool
  | JSValue.null => false
  | JSValue.bool b => b
  | JSValue.num n => decide (n ≠ 0)
  | JSValue.str s => decide (s ≠ "")
  | JSValue.arr _ => true
  | JSValue.obj _ => true

/-- The double-quote character U+0022. -/
def dquote : Char := Char.ofNat 34
/-- The reverse solidus U+005C. -/
def backslash : Char := Char.ofNat 92

/-- One code point of `QuoteJSONString`: the short escapes, a six-character unicode escape for the other
control characters, the character itself otherwise. -/
def quoteChar (c : Char) : List Char :=
  if c.toNat = 8 then [backslash, 'b']
  else if c.toNat = 9 then [backslash, 't']
  else if c.toNat = 10 then [backslash, 'n']
  else if c.toNat = 12 then [backslash, 'f']
  else if c.toNat = 13 then [backslash, 'r']
  else if c.toNat = 34 then [backslash, dquote]
  else if c.toNat = 92 then [backslash, backslash]
  else if c.toNat < 32 then
    [backslash, 'u', '0', '0', Nat.digitChar (c.toNat / 16), Nat.digitChar (c.toNat % 16)]
  else [c]

/-- The `QuoteJSONString` operation used by `JSON.stringify` for strings and property names. -/
def quoteJSONString (s : String) : List Char :=
  dquote :: (s.data.flatMap quoteChar ++ [dquote])

/-- The decimal rendering `Number::toString` gives an integer below `10^21` in magnitude. -/
def numberToString (n : Int) : List Char :=
  match n with
  | Int.ofNat m => Nat.toDigits 10 m
  | Int.negSucc m => '-' :: Nat.toDigits 10 (m + 1)

mutual
/-- Serialisation of a value by `JSON.stringify` called without indentation. -/
def stringify : JSValue → List Char
  | JSValue.null => "null".data
  | JSValue.bool true => "true".data
  | JSValue.bool false => "false".data
  | JSValue.num n => numberToString n
  | JSValue.str s => quoteJSONString s
  | JSValue.arr items => '[' :: (stringifyItems items ++ [']'])
  | JSValue.obj members => '{' :: (stringifyMembers members ++ ['}'])
/-- Serialisation of the elements of an array, separated by commas. -/
def stringifyItems : List JSValue → List Char
  | [] => []
  | [v] => stringify v
  | v :: w :: rest => stringify v ++ ',' :: stringifyItems (w :: rest)
/-- Serialisation of the properties of an object, in insertion order. -/
def stringifyMembers : List (String × JSValue) → List Char
  | [] => []
  | [(k, v)] => quoteJSONString k ++ ':' :: stringify v
  | (k, v) :: m :: rest => quoteJSONString k ++ ':' :: stringify v ++ ',' :: stringifyMembers (m :: rest)
end


/-- JSON whitespace: space, tab, line feed, carriage return. -/
def isWhitespace (c : Char) : Bool :=
  decide (c.toNat = 32 ∨ c.toNat = 9 ∨ c.toNat = 10 ∨ c.toNat = 13)

/-- Drop leading JSON whitespace. -/
def skipWhitespace : List Char → List Char
  | [] => []
  | c :: cs => if isWhitespace c then skipWhitespace cs else c :: cs

/-- Value of a decimal digit. -/
def digitVal (c : Char) : Option Nat :=
  if 48 ≤ c.toNat ∧ c.toNat ≤ 57 then some (c.toNat - 48) else none

/-- Value of a hexadecimal digit, either case. -/
def hexVal (c : Char) : Option Nat :=
  if 48 ≤ c.toNat ∧ c.toNat ≤ 57 then some (c.toNat - 48)
  else if 97 ≤ c.toNat ∧ c.toNat ≤ 102 then some (c.toNat - 87)
  else if 65 ≤ c.toNat ∧ c.toNat ≤ 70 then some (c.toNat - 55)
  else none

/-- The code unit written by the four hexadecimal digits of a unicode escape. -/
def hex4 (a b c d : Char) : Option Nat :=
  match hexVal a, hexVal b, hexVal c, hexVal d with
  | some x, some y, some z, some w => some (((x * 16 + y) * 16 + z) * 16 + w)
  | _, _, _, _ => none

/-- The character written by a single-character escape. -/
def unescape (e : Char) : Option Char :=
  if e.toNat = 34 then some dquote
  else if e.toNat = 92 then some backslash
  else if e = '/' then some '/'
  else if e = 'b' then some (Char.ofNat 8)
  else if e = 'f' then some (Char.ofNat 12)
  else if e = 'n' then some (Char.ofNat 10)
  else if e = 'r' then some (Char.ofNat 13)
  else if e = 't' then some (Char.ofNat 9)
  else none

/-- Read a JSON string after its opening quote, up to and including the closing
quote. Raw control characters are rejected; an escaped surrogate code unit is
outside the modelled fragment, as `String` holds scalar values only. -/
def parseStringBody : List Char → List Char → Option (String × List Char)
  | [], _ => none
  | c :: cs, acc =>
    if c.toNat = 34 then some (String.mk acc.reverse, cs)
    else if c.toNat = 92 then
      match cs with
      | [] => none
      | e :: cs1 =>
        if e = 'u' then
          match cs1 with
          | a :: b :: x :: y :: cs2 =>
            match hex4 a b x y with
            | some n =>
              if 55296 ≤ n ∧ n < 57344 then none
              else parseStringBody cs2 (Char.ofNat n :: acc)
            | none => none
          | _ => none
        else
          match unescape e with
          | some ch => parseStringBody cs1 (ch :: acc)
          | none => none
    else if c.toNat < 32 then none
    else parseStringBody cs (c :: acc)

/-- Read a run of decimal digits onto the accumulator. -/
def parseDigits : Nat → List Char → Nat × List Char
  | acc, [] => (acc, [])
  | acc, c :: cs =>
    match digitVal c with
    | some d => parseDigits (acc * 10 + d) cs
    | none => (acc, c :: cs)

/-- The integer part of a JSON number: a lone `0`, or a non-zero digit followed by digits. -/
def parseNat : List Char → Option (Nat × List Char)
  | [] => none
  | c :: cs =>
    match digitVal c with
    | none => none
    | some 0 => some (0, cs)
    | some d => some (parseDigits d cs)

/-- Whether a fraction or exponent part comes next. -/
def fractionFollows : List Char → Bool
  | [] => false
  | c :: _ => decide (c = '.' ∨ c = 'e' ∨ c = 'E')

/-- A JSON number. Literals with a fraction or an exponent are outside the
modelled fragment and yield `none`. -/
def parseNumber (cs : List Char) : Option (JSValue × List Char) :=
  match cs with
  | [] => none
  | c :: rest =>
    if c = '-' then
      match parseNat rest with
      | some (n, r) => if fractionFollows r then none else some (JSValue.num (-(n : Int)), r)
      | none => none
    else
      match parseNat (c :: rest) with
      | some (n, r) => if fractionFollows r then none else some (JSValue.num (n : Int), r)
      | none => none

/-- Define a property of an object under construction: a repeated key keeps its
place and takes the later value. -/
def setMember (members : List (String × JSValue)) (key : String) (v : JSValue) :
    List (String × JSValue) :=
  match members with
  | [] => [(key, v)]
  | (k, w) :: rest => if k = key then (k, v) :: rest else (k, w) :: setMember rest key v

/-- The elements of a non-empty array, after the opening bracket, given the value reader. -/
def parseElements (pv : List Char → Option (JSValue × List Char)) :
    Nat → List Char → List JSValue → Option (List JSValue × List Char)
  | 0, _, _ => none
  | k + 1, cs, acc =>
    match pv cs with
    | none => none
    | some (v, rest) =>
      match skipWhitespace rest with
      | c :: rest1 =>
        if c = ',' then parseElements pv k rest1 (v :: acc)
        else if c = ']' then some ((v :: acc).reverse, rest1)
        else none
      | [] => none

/-- The members of a non-empty object, after the opening brace, given the value reader. -/
def parseMembers (pv : List Char → Option (JSValue × List Char)) :
    Nat → List Char → List (String × JSValue) → Option (List (String × JSValue) × List Char)
  | 0, _, _ => none
  | k + 1, cs, acc =>
    match skipWhitespace cs with
    | [] => none
    | q :: cs1 =>
      if q.toNat = 34 then
        match parseStringBody cs1 [] with
        | none => none
        | some (key, cs2) =>
          match skipWhitespace cs2 with
          | [] => none
          | colon :: cs3 =>
            if colon = ':' then
              match pv cs3 with
              | none => none
              | some (v, rest) =>
                match skipWhitespace rest with
                | c :: rest1 =>
                  if c = ',' then parseMembers pv k rest1 (setMember acc key v)
                  else if c = '}' then some (setMember acc key v, rest1)
                  else none
                | [] => none
            else none
      else none

/-- Recursive-descent reading of one JSON value; the first argument bounds the
nesting depth. -/
def parseValue : Nat → List Char → Option (JSValue × List Char)
  | 0, _ => none
  | fuel + 1, cs =>
    match skipWhitespace cs with
    | [] => none
    | c :: rest =>
      if c.toNat = 34 then
        match parseStringBody rest [] with
        | some (s, r) => some (JSValue.str s, r)
        | none => none
      else if c = '[' then
        match skipWhitespace rest with
        | [] => none
        | d :: rest1 =>
          if d = ']' then some (JSValue.arr [], rest1)
          else
            match parseElements (parseValue fuel) (d :: rest1).length (d :: rest1) [] with
            | some (items, r) => some (JSValue.arr items, r)
            | none => none
      else if c = '{' then
        match skipWhitespace rest with
        | [] => none
        | d :: rest1 =>
          if d = '}' then some (JSValue.obj [], rest1)
          else
            match parseMembers (parseValue fuel) (d :: rest1).length (d :: rest1) [] with
            | some (members, r) => some (JSValue.obj members, r)
            | none => none
      else
        match c :: rest with
        | 'n' :: 'u' :: 'l' :: 'l' :: r => some (JSValue.null, r)
        | 't' :: 'r' :: 'u' :: 'e' :: r => some (JSValue.bool true, r)
        | 'f' :: 'a' :: 'l' :: 's' :: 'e' :: r => some (JSValue.bool false, r)
        | other => parseNumber other

/-- The built-in `JSON.stringify` on the modelled values. -/
def JSON.stringify (v : JSValue) : String := String.mk (Taskmate.stringify v)

/-- The built-in `JSON.parse`: one value surrounded by optional whitespace. The
result is `none` where the runtime throws `SyntaxError` and on text outside the
modelled fragment. -/
def JSON.parse (text : String) : Option JSValue :=
  match parseValue (text.data.length + 1) text.data with
  | some (v, rest) => if skipWhitespace rest = [] then some v else none
  | none => none


/-- The JavaScript object that a task record is: properties `id`, `name`, `time` in the
order of the object literals in `handleSubmit`. -/
def Task.toJS (t : Task) : JSValue :=
  JSValue.obj [("id", JSValue.num t.id), ("name", JSValue.str t.name), ("time", JSValue.str t.time)]

/-- The JavaScript array held by the `tasklist` state. -/
def tasklistToJS (tasklist : List Task) : JSValue :=
  JSValue.arr (tasklist.map Task.toJS)

/-- The key-value store `localStorage`: `none` is the `null` that `getItem` returns for an absent key. -/
def Storage := String → Option String

/-- The method `localStorage.getItem`. -/
def Storage.getItem (storage : Storage) (key : String) : Option String := storage key

/-- The method `localStorage.setItem`. -/
def Storage.setItem (storage : Storage) (key value : String) : Storage :=
  fun k => if k = key then some value else storage k

/-- A store with no keys. -/
def emptyStorage : Storage := fun _ => none

/-- The call `JSON.parse(localStorage.getItem(key))`: a `null` argument is converted to the text `null`. -/
def parseItem (item : Option String) : Option JSValue :=
  match item with
  | none => JSON.parse "null"
  | some text => JSON.parse text

/-- Initial value of the `tasklist` state:
`JSON.parse(localStorage.getItem('tasklist')) || []`. -/
def initialTasklist (storage : Storage) : Option JSValue :=
  match parseItem (storage.getItem "tasklist") with
  | some v => if v.truthy then some v else some (JSValue.arr [])
  | none => none

/-- Initial value of the `theme` state:
`JSON.parse(localStorage.getItem('theme')) || "medium"`. -/
def initialTheme (storage : Storage) : Option JSValue :=
  match parseItem (storage.getItem "theme") with
  | some v => if v.truthy then some v else some (JSValue.str "medium")
  | none => none

/-- The effect run when `tasklist` changes:
`localStorage.setItem('tasklist', JSON.stringify(tasklist))`. -/
def persistTasklist (storage : Storage) (tasklist : List Task) : Storage :=
  storage.setItem "tasklist" (JSON.stringify (tasklistToJS tasklist))

/-- The effect run when `theme` changes:
`localStorage.setItem('theme', JSON.stringify(theme))`. -/
def persistTheme (storage : Storage) (theme : JSValue) : Storage :=
  storage.setItem "theme" (JSON.stringify theme)

/-- The state setter `setTheme` followed by the effect that persists the new theme. -/
def setTheme (storage : Storage) (value : String) : JSValue × Storage :=
  (JSValue.str value, persistTheme storage (JSValue.str value))

/-- States reachable from the initial state by the three handlers and by typing
into the input field. A handler that throws leaves the state as computed in its
`Outcome`, and the application goes on from there. -/
inductive Reachable (loc : Locale) : AppState → Prop where
  | init : Reachable loc initialState
  | submit (date : Int) {st : AppState} :
      Reachable loc st → Reachable loc (handleSubmit loc date st).state
  | edit (id : Int) {st : AppState} :
      Reachable loc st → Reachable loc (handleEdit st id).state
  | delete (id : Int) {st : AppState} :
      Reachable loc st → Reachable loc (handleDelete st id).state
  | input (text : String) {st : AppState} :
      Reachable loc st → Reachable loc (setTask st text)

/-- One add operation: type `text` into the input field, then submit at the instant `date`. -/
def addOp (loc : Locale) (st : AppState) (text : String) (date : Int) : Outcome :=
  handleSubmit loc date (setTask st text)

/-- Run a sequence of add operations, each given by its input text and the clock
reading at its submit; `none` if one of them throws. -/
def runAdds (loc : Locale) : AppState → List (String × Int) → Option AppState
  | st, [] => some st
  | st, (text, date) :: ops =>
    match (addOp loc st text date).thrown with
    | none => runAdds loc (addOp loc st text date).state ops
    | some _ => none

/-- A fixed locale used in the worked examples. -/
def sampleLocale : Locale :=
  { toLocaleTimeString := fun _ => "10:00:00 AM", toLocaleDateString := fun _ => "11/4/2026" }

/-- The state after adding two tasks at the instants 5 and 6, selecting the first
for edit and deleting it. -/
def staleSelectionState : AppState :=
  (handleDelete
    (handleEdit
      (addOp sampleLocale (addOp sampleLocale initialState "a" 5).state "b" 6).state
      5).state
    5).state

/-- The state after adding one task at the instant 5, selecting it for edit and
clearing the input field. -/
def clearedEditState : AppState :=
  setTask (handleEdit (addOp sampleLocale initialState "a" 5).state 5).state ""

theorem char_eq_of_toNat {c : Char} {n : Nat} (h : c.toNat = n) : c = Char.ofNat n := by
  rw [← h, Char.ofNat_toNat]

theorem hexVal_digitChar (d : Nat) (h : d < 16) : hexVal (Nat.digitChar d) = some d := by
  interval_cases d <;> rfl


theorem parseStringBody_plain (c : Char) (cs acc : List Char)
    (h1 : c.toNat ≠ 34) (h2 : c.toNat ≠ 92) (h3 : ¬ c.toNat < 32) :
    parseStringBody (c :: cs) acc = parseStringBody cs (c :: acc) := by
  rw [parseStringBody.eq_def]
  simp [h1, h2, h3]

theorem parseStringBody_escape (e ch : Char) (cs acc : List Char)
    (h1 : e ≠ 'u') (h2 : unescape e = some ch) :
    parseStringBody (backslash :: e :: cs) acc = parseStringBody cs (ch :: acc) := by
  rw [parseStringBody.eq_def]
  simp [h1, h2, backslash]

theorem parseStringBody_control (n : Nat) (cs acc : List Char) (h : n < 32) :
    parseStringBody (backslash :: 'u' :: '0' :: '0' :: Nat.digitChar (n / 16) ::
      Nat.digitChar (n % 16) :: cs) acc = parseStringBody cs (Char.ofNat n :: acc) := by
  rw [parseStringBody.eq_def]
  have h1 : hexVal (Nat.digitChar (n / 16)) = some (n / 16) := hexVal_digitChar _ (by omega)
  have h2 : hexVal (Nat.digitChar (n % 16)) = some (n % 16) := hexVal_digitChar _ (by omega)
  have h0 : hexVal '0' = some 0 := rfl
  have h3 : (n / 16) * 16 + n % 16 = n := by omega
  simp [backslash, hex4, h0, h1, h2, h3]
  omega

theorem parseStringBody_quoteChar (c : Char) (cs acc : List Char) :
    parseStringBody (quoteChar c ++ cs) acc = parseStringBody cs (c :: acc) := by
  unfold quoteChar
  split_ifs with h1 h2 h3 h4 h5 h6 h7 h8
  · have := char_eq_of_toNat h1; subst this; exact parseStringBody_escape _ _ _ _ (by decide) rfl
  · have := char_eq_of_toNat h2; subst this; exact parseStringBody_escape _ _ _ _ (by decide) rfl
  · have := char_eq_of_toNat h3; subst this; exact parseStringBody_escape _ _ _ _ (by decide) rfl
  · have := char_eq_of_toNat h4; subst this; exact parseStringBody_escape _ _ _ _ (by decide) rfl
  · have := char_eq_of_toNat h5; subst this; exact parseStringBody_escape _ _ _ _ (by decide) rfl
  · have := char_eq_of_toNat h6; subst this; exact parseStringBody_escape _ _ _ _ (by decide) rfl
  · have := char_eq_of_toNat h7; subst this; exact parseStringBody_escape _ _ _ _ (by decide) rfl
  · have hc : Char.ofNat c.toNat = c := Char.ofNat_toNat c
    rw [← hc]
    simpa using parseStringBody_control c.toNat cs acc h8
  · exact parseStringBody_plain c cs acc h6 h7 h8

theorem parseStringBody_quote (s cs acc : List Char) :
    parseStringBody (s.flatMap quoteChar ++ dquote :: cs) acc
      = some (String.mk (acc.reverse ++ s), cs) := by
  induction s generalizing acc with
  | nil =>
    rw [parseStringBody.eq_def]
    simp [dquote]
  | cons c s ih =>
    rw [List.flatMap_cons, List.append_assoc, parseStringBody_quoteChar, ih]
    simp

theorem parse_quoteJSONString (s : String) (cs : List Char) :
    parseStringBody ((quoteJSONString s).tail ++ cs) [] = some (s, cs) := by
  have := parseStringBody_quote s.data cs []
  simpa [quoteJSONString] using this


theorem digitVal_digitChar (d : Nat) (h : d < 10) : digitVal (Nat.digitChar d) = some d := by
  interval_cases d <;> rfl

theorem toNat_digitChar (d : Nat) (h : d < 10) : (Nat.digitChar d).toNat = 48 + d := by
  interval_cases d <;> rfl

theorem toDigitsCore_spec (fuel : Nat) : ∀ (n : Nat) (ds : List Char), n < fuel →
    ∃ (d : Nat) (L : List Nat), d < 10 ∧ (∀ x ∈ L, x < 10) ∧ (n ≠ 0 → d ≠ 0) ∧
      Nat.toDigitsCore 10 fuel n ds = Nat.digitChar d :: (L.map Nat.digitChar ++ ds) ∧
      L.foldl (fun a x => a * 10 + x) d = n := by
  induction fuel with
  | zero => intro n ds h; omega
  | succ fuel ih =>
    intro n ds h
    by_cases h0 : n / 10 = 0
    · refine ⟨n, [], by omega, by simp, fun hn => hn, ?_, rfl⟩
      have : n % 10 = n := by omega
      simp [Nat.toDigitsCore, h0, this]
    · obtain ⟨d, L, hd, hL, hne, heq, hval⟩ := ih (n / 10) (Nat.digitChar (n % 10) :: ds) (by omega)
      refine ⟨d, L ++ [n % 10], hd, ?_, fun _ => hne h0, ?_, ?_⟩
      · intro x hx
        rcases List.mem_append.1 hx with hx | hx
        · exact hL x hx
        · simp at hx; omega
      · simp [Nat.toDigitsCore, h0, heq]
      · simp [List.foldl_append, hval]; omega

theorem parseDigits_digits (L : List Nat) : ∀ (acc : Nat) (rest : List Char),
    (∀ x ∈ L, x < 10) → (∀ c cs, rest = c :: cs → digitVal c = none) →
    parseDigits acc (L.map Nat.digitChar ++ rest) = (L.foldl (fun a x => a * 10 + x) acc, rest) := by
  induction L with
  | nil =>
    intro acc rest _ hrest
    cases rest with
    | nil => rfl
    | cons c cs => simp [parseDigits, hrest c cs rfl]
  | cons x L ih =>
    intro acc rest hL hrest
    have hx : x < 10 := hL x (by simp)
    simp only [List.map_cons, List.cons_append, parseDigits, digitVal_digitChar x hx, List.foldl_cons]
    exact ih _ rest (fun y hy => hL y (by simp [hy])) hrest

theorem parseNat_toDigits (n : Nat) (rest : List Char)
    (hrest : ∀ c cs, rest = c :: cs → digitVal c = none) :
    parseNat (Nat.toDigits 10 n ++ rest) = some (n, rest) := by
  obtain ⟨d, L, hd, hL, hne, heq, hval⟩ := toDigitsCore_spec (n + 1) n [] (by omega)
  have heq2 : Nat.toDigits 10 n = Nat.digitChar d :: L.map Nat.digitChar := by
    simpa [Nat.toDigits] using heq
  rw [heq2]
  simp only [List.cons_append, parseNat, digitVal_digitChar d hd]
  cases d with
  | zero =>
    have hn : n = 0 := by
      by_contra h
      exact hne h rfl
    subst hn
    have : L = [] := by
      have h1 : Nat.toDigits 10 0 = ['0'] := rfl
      rw [h1] at heq2
      have := heq2
      simp at this
      exact this.2
    subst this
    rfl
  | succ d =>
    simp only
    rw [parseDigits_digits L _ rest hL hrest, hval]

theorem toDigits_head (n : Nat) : ∃ c cs, Nat.toDigits 10 n = c :: cs ∧ 48 ≤ c.toNat ∧ c.toNat ≤ 57 := by
  obtain ⟨d, L, hd, _, _, heq, _⟩ := toDigitsCore_spec (n + 1) n [] (by omega)
  refine ⟨Nat.digitChar d, L.map Nat.digitChar, by simpa [Nat.toDigits] using heq, ?_, ?_⟩ <;>
    rw [toNat_digitChar d hd] <;> omega

theorem parseNumber_numberToString (n : Int) (rest : List Char)
    (hrest : ∀ c cs, rest = c :: cs → digitVal c = none) (hfrac : fractionFollows rest = false) :
    parseNumber (numberToString n ++ rest) = some (JSValue.num n, rest) := by
  cases n with
  | ofNat m =>
    obtain ⟨c, cs, hcs, h1, h2⟩ := toDigits_head m
    have hp := parseNat_toDigits m rest hrest
    simp only [numberToString]
    rw [hcs] at hp ⊢
    have hc : c ≠ '-' := by
      intro h; subst h; revert h1; decide
    simp only [List.cons_append, parseNumber, hc, if_false] at hp ⊢
    rw [hp]
    simp [hfrac]
  | negSucc m =>
    have hp := parseNat_toDigits (m + 1) rest hrest
    simp only [numberToString, List.cons_append, parseNumber, if_true]
    rw [hp]
    simp [hfrac, Int.negSucc_eq]

theorem numberToString_head (n : Int) :
    ∃ c cs, numberToString n = c :: cs ∧ (c.toNat = 45 ∨ (48 ≤ c.toNat ∧ c.toNat ≤ 57)) := by
  cases n with
  | ofNat m =>
    obtain ⟨c, cs, hcs, h1, h2⟩ := toDigits_head m
    exact ⟨c, cs, by simp [numberToString, hcs], Or.inr ⟨h1, h2⟩⟩
  | negSucc m => exact ⟨'-', _, rfl, Or.inl rfl⟩

theorem parseValue_number (fuel : Nat) (c : Char) (cs : List Char)
    (hc : c.toNat = 45 ∨ (48 ≤ c.toNat ∧ c.toNat ≤ 57)) :
    parseValue (fuel + 1) (c :: cs) = parseNumber (c :: cs) := by
  have hws : isWhitespace c = false := by
    simp [isWhitespace]; omega
  have h34 : c.toNat ≠ 34 := by omega
  have hb : c ≠ '[' := by intro h; subst h; revert hc; decide
  have hbr : c ≠ '{' := by intro h; subst h; revert hc; decide
  rw [parseValue]
  simp only [skipWhitespace, hws, h34, hb, hbr, if_false, Bool.false_eq_true]
  split
  · rename_i h; simp only [List.cons.injEq] at h; obtain ⟨h, _⟩ := h; subst h; exact absurd hc (by decide)
  · rename_i h; simp only [List.cons.injEq] at h; obtain ⟨h, _⟩ := h; subst h; exact absurd hc (by decide)
  · rename_i h; simp only [List.cons.injEq] at h; obtain ⟨h, _⟩ := h; subst h; exact absurd hc (by decide)
  · rfl

theorem parseValue_numberToString (fuel : Nat) (n : Int) (rest : List Char)
    (hrest : ∀ c cs, rest = c :: cs → digitVal c = none) (hfrac : fractionFollows rest = false) :
    parseValue (fuel + 1) (numberToString n ++ rest) = some (JSValue.num n, rest) := by
  obtain ⟨c, cs, hcs, hc⟩ := numberToString_head n
  have := parseNumber_numberToString n rest hrest hfrac
  rw [hcs] at this ⊢
  rw [List.cons_append, parseValue_number fuel c _ hc]
  exact this


theorem skipWhitespace_cons (c : Char) (cs : List Char) (h : isWhitespace c = false) :
    skipWhitespace (c :: cs) = c :: cs := by
  simp [skipWhitespace, h]

theorem parseValue_quote (fuel : Nat) (rest : List Char) :
    parseValue (fuel + 1) (dquote :: rest) =
      match parseStringBody rest [] with
      | some (s, r) => some (JSValue.str s, r)
      | none => none := by
  rw [parseValue, skipWhitespace_cons _ _ (by decide)]
  simp only [dquote]
  rw [if_pos (by decide)]

theorem parseValue_brace (fuel : Nat) (d : Char) (rest : List Char)
    (hd : isWhitespace d = false) (hne : d ≠ '}') :
    parseValue (fuel + 1) ('{' :: d :: rest) =
      match parseMembers (parseValue fuel) (rest.length + 1) (d :: rest) [] with
      | some (members, r) => some (JSValue.obj members, r)
      | none => none := by
  rw [parseValue, skipWhitespace_cons _ _ (by decide)]
  simp only
  rw [if_neg (by decide), if_neg (by decide), if_pos trivial, skipWhitespace_cons _ _ hd]
  simp only [if_neg hne, List.length_cons]

theorem parseValue_bracket (fuel : Nat) (d : Char) (rest : List Char)
    (hd : isWhitespace d = false) (hne : d ≠ ']') :
    parseValue (fuel + 1) ('[' :: d :: rest) =
      match parseElements (parseValue fuel) (rest.length + 1) (d :: rest) [] with
      | some (items, r) => some (JSValue.arr items, r)
      | none => none := by
  rw [parseValue, skipWhitespace_cons _ _ (by decide)]
  simp only
  rw [if_neg (by decide), if_pos trivial, skipWhitespace_cons _ _ hd]
  simp only [if_neg hne, List.length_cons]

theorem parseValue_emptyArray (fuel : Nat) (rest : List Char) :
    parseValue (fuel + 1) ('[' :: ']' :: rest) = some (JSValue.arr [], rest) := by
  rw [parseValue, skipWhitespace_cons _ _ (by decide)]
  simp only
  rw [if_neg (by decide), if_pos trivial, skipWhitespace_cons _ _ (by decide)]
  simp only [if_true]

theorem parseValue_string (fuel : Nat) (s : String) (rest : List Char) :
    parseValue (fuel + 1) (quoteJSONString s ++ rest) = some (JSValue.str s, rest) := by
  have h := parseStringBody_quote s.data rest []
  simp only [List.reverse_nil, List.nil_append] at h
  simp only [quoteJSONString, List.cons_append, List.append_assoc, List.singleton_append,
    List.nil_append]
  rw [parseValue_quote, h]

theorem parseMembers_step (pv : List Char → Option (JSValue × List Char)) (k : Nat)
    (key : String) (text rest : List Char) (v : JSValue) (c : Char)
    (acc : List (String × JSValue)) (hc : isWhitespace c = false)
    (hpv : pv (text ++ c :: rest) = some (v, c :: rest)) :
    parseMembers pv (k + 1) (quoteJSONString key ++ ':' :: (text ++ c :: rest)) acc =
      if c = ',' then parseMembers pv k rest (setMember acc key v)
      else if c = '}' then some (setMember acc key v, rest)
      else none := by
  have h := parseStringBody_quote key.data (':' :: (text ++ c :: rest)) []
  simp only [List.reverse_nil, List.nil_append] at h
  rw [parseMembers]
  simp only [quoteJSONString, List.cons_append, List.append_assoc, List.singleton_append,
    List.nil_append]
  rw [skipWhitespace_cons _ _ (by decide)]
  simp only [dquote] at h ⊢
  rw [if_pos (by decide), h]
  simp only
  rw [skipWhitespace_cons _ _ (by decide)]
  simp only [if_true, hpv]
  rw [skipWhitespace_cons _ _ hc]

theorem parseElements_step (pv : List Char → Option (JSValue × List Char)) (k : Nat)
    (text rest : List Char) (v : JSValue) (c : Char) (acc : List JSValue)
    (hc : isWhitespace c = false) (hpv : pv (text ++ c :: rest) = some (v, c :: rest)) :
    parseElements pv (k + 1) (text ++ c :: rest) acc =
      if c = ',' then parseElements pv k rest (v :: acc)
      else if c = ']' then some ((v :: acc).reverse, rest)
      else none := by
  rw [parseElements]
  simp only [hpv]
  rw [skipWhitespace_cons _ _ hc]

theorem stringify_task (t : Task) :
    stringify t.toJS = '{' :: dquote :: 'i' :: 'd' :: dquote :: ':' ::
      (numberToString t.id ++ ',' ::
      (quoteJSONString "name" ++ ':' :: (quoteJSONString t.name ++ ',' ::
      (quoteJSONString "time" ++ ':' :: (quoteJSONString t.time ++ ['}']))))) := by
  simp [Task.toJS, stringify, stringifyMembers, quoteJSONString, quoteChar]

theorem parseValue_task (fuel : Nat) (t : Task) (rest : List Char) :
    parseValue (fuel + 2) (stringify t.toJS ++ rest) = some (t.toJS, rest) := by
  rw [stringify_task]
  simp only [List.cons_append, List.append_assoc, List.singleton_append, List.nil_append]
  rw [parseValue_brace _ _ _ (by decide) (by decide)]
  have hid : (dquote :: 'i' :: 'd' :: dquote :: ':' :: (numberToString t.id ++ ',' ::
      (quoteJSONString "name" ++ ':' :: (quoteJSONString t.name ++ ',' ::
      (quoteJSONString "time" ++ ':' :: (quoteJSONString t.time ++ '}' :: rest)))))) =
      quoteJSONString "id" ++ ':' :: (numberToString t.id ++ ',' ::
      (quoteJSONString "name" ++ ':' :: (quoteJSONString t.name ++ ',' ::
      (quoteJSONString "time" ++ ':' :: (quoteJSONString t.time ++ '}' :: rest))))) := by
    simp [quoteJSONString, quoteChar]
  obtain ⟨k, hk⟩ : ∃ k, (('i' :: 'd' :: dquote :: ':' :: (numberToString t.id ++ ',' ::
      (quoteJSONString "name" ++ ':' :: (quoteJSONString t.name ++ ',' ::
      (quoteJSONString "time" ++ ':' :: (quoteJSONString t.time ++ '}' :: rest)))))).length + 1)
      = k + 3 := by
    simp only [List.length_cons]
    exact ⟨_, rfl⟩
  rw [hk, hid]
  rw [parseMembers_step (parseValue (fuel + 1)) _ "id" (numberToString t.id) _ (JSValue.num t.id)
    ',' [] (by decide) (parseValue_numberToString fuel _ _ (by
      intro c cs h; simp only [List.cons.injEq] at h; rw [← h.1]; rfl) rfl)]
  rw [if_pos rfl]
  rw [parseMembers_step (parseValue (fuel + 1)) _ "name" (quoteJSONString t.name) _
    (JSValue.str t.name) ',' _ (by decide) (parseValue_string fuel _ _)]
  rw [if_pos rfl]
  rw [parseMembers_step (parseValue (fuel + 1)) _ "time" (quoteJSONString t.time) _
    (JSValue.str t.time) '}' _ (by decide) (parseValue_string fuel _ _)]
  rw [if_neg (by decide), if_pos rfl]
  simp [setMember, Task.toJS]


theorem stringifyItems_tasks_head (t : Task) (ts : List Task) :
    ∃ tl, stringifyItems ((t :: ts).map Task.toJS) = '{' :: tl := by
  cases ts with
  | nil =>
    simp only [List.map_cons, List.map_nil, stringifyItems, stringify_task, List.cons_append]
    exact ⟨_, rfl⟩
  | cons u us =>
    simp only [List.map_cons, stringifyItems, stringify_task, List.cons_append]
    exact ⟨_, rfl⟩

theorem stringifyItems_tasks_length (ts : List Task) : ∀ t : Task,
    (t :: ts).length ≤ (stringifyItems ((t :: ts).map Task.toJS)).length := by
  induction ts with
  | nil => intro t; simp [stringifyItems, stringify_task]
  | cons u us ih =>
    intro t
    have := ih u
    simp only [List.map_cons, stringifyItems, List.length_append, List.length_cons] at this ⊢
    omega

theorem parseElements_tasks (fuel : Nat) (ts : List Task) :
    ∀ (t : Task) (k : Nat) (acc : List JSValue) (rest : List Char), (t :: ts).length ≤ k →
    parseElements (parseValue (fuel + 2)) k
        (stringifyItems ((t :: ts).map Task.toJS) ++ ']' :: rest) acc
      = some (acc.reverse ++ (t :: ts).map Task.toJS, rest) := by
  induction ts with
  | nil =>
    intro t k acc rest hk
    obtain ⟨k, rfl⟩ : ∃ j, k = j + 1 := ⟨k - 1, by simp at hk; omega⟩
    simp only [List.map_cons, List.map_nil, stringifyItems]
    rw [parseElements_step _ _ _ _ t.toJS ']' _ (by decide) (parseValue_task fuel t _)]
    rw [if_neg (by decide), if_pos rfl]
    simp
  | cons u us ih =>
    intro t k acc rest hk
    obtain ⟨k, rfl⟩ : ∃ j, k = j + 1 := ⟨k - 1, by simp at hk; omega⟩
    simp only [List.map_cons, stringifyItems, List.append_assoc, List.cons_append]
    rw [parseElements_step _ _ _ _ t.toJS ',' _ (by decide) (parseValue_task fuel t _)]
    rw [if_pos rfl]
    have := ih u k (t.toJS :: acc) rest (by simp at hk ⊢; omega)
    simp only [List.map_cons] at this
    rw [this]
    simp

theorem parseValue_tasklist (fuel : Nat) (tasklist : List Task) (rest : List Char) :
    parseValue (fuel + 3) (stringify (tasklistToJS tasklist) ++ rest)
      = some (tasklistToJS tasklist, rest) := by
  cases tasklist with
  | nil =>
    simp only [tasklistToJS, List.map_nil, stringify, stringifyItems, List.nil_append,
      List.cons_append]
    exact parseValue_emptyArray _ rest
  | cons t ts =>
    obtain ⟨tl, htl⟩ := stringifyItems_tasks_head t ts
    have hlen := stringifyItems_tasks_length ts t
    have hp := parseElements_tasks fuel ts t ((tl ++ ']' :: rest).length + 1) [] rest (by
      rw [htl] at hlen
      simp only [List.length_cons, List.length_append] at hlen ⊢
      omega)
    rw [htl] at hp
    simp only [tasklistToJS, stringify, List.cons_append, List.append_assoc,
      List.singleton_append, List.nil_append, htl]
    rw [parseValue_bracket _ _ _ (by decide) (by decide)]
    simp only [List.cons_append] at hp
    rw [hp]
    simp

theorem JSON_parse_stringify_tasklist (tasklist : List Task) :
    JSON.parse (JSON.stringify (tasklistToJS tasklist)) = some (tasklistToJS tasklist) := by
  have hlen : ∃ k, (stringify (tasklistToJS tasklist)).length + 1 = k + 3 := by
    simp only [tasklistToJS, stringify, List.length_cons, List.length_append, List.length_nil]
    exact ⟨_, rfl⟩
  obtain ⟨k, hk⟩ := hlen
  have h := parseValue_tasklist k tasklist []
  simp only [List.append_nil] at h
  simp only [JSON.parse, JSON.stringify, hk, h, skipWhitespace, if_true]

theorem JSON_parse_stringify_str (s : String) :
    JSON.parse (JSON.stringify (JSValue.str s)) = some (JSValue.str s) := by
  have h := parseValue_string (stringify (JSValue.str s)).length s []
  simp only [List.append_nil] at h
  simp only [JSON.parse, JSON.stringify, stringify] at h ⊢
  simp only [h, skipWhitespace, if_true]

theorem Task.toJS_injective : Function.Injective Task.toJS := by
  intro a b h
  cases a; cases b
  simp [Task.toJS] at h
  simp [h]

theorem tasklistToJS_injective : Function.Injective tasklistToJS := by
  intro a b h
  simp only [tasklistToJS, JSValue.arr.injEq] at h
  exact List.map_injective_iff.2 Task.toJS_injective h


/-! ## The handlers -/

theorem mapM_updateCallback_some (loc : Locale) (date : Int) (task : String) (sel : Task)
    (l : List Task) :
    l.mapM (updateCallback loc date task (some sel)) =
      Except.ok (l.map (fun e =>
        if e.id = sel.id then { id := e.id, name := task, time := timeString loc date } else e)) := by
  induction l with
  | nil => rfl
  | cons e l ih =>
    rw [List.mapM_cons, ih]
    by_cases h : e.id = sel.id <;>
      simp [updateCallback, h, bind, Except.bind, pure, Except.pure]

theorem mapM_updateCallback_none (loc : Locale) (date : Int) (task : String)
    (e : Task) (l : List Task) :
    (e :: l).mapM (updateCallback loc date task none) = Except.error JsError.TypeError := by
  rw [List.mapM_cons]
  simp [updateCallback, bind, Except.bind]

theorem find?_id_of_mem (l : List Task) (id : Int) (h : ∃ t ∈ l, t.id = id) :
    ∃ sel, l.find? (fun task => decide (task.id = id)) = some sel ∧ sel.id = id := by
  cases hf : l.find? (fun task => decide (task.id = id)) with
  | none =>
    obtain ⟨t, ht, hid⟩ := h
    have := List.find?_eq_none.1 hf t ht
    simp [hid] at this
  | some sel =>
    have := List.find?_some hf
    exact ⟨sel, rfl, by simpa using this⟩

theorem find?_id_none (l : List Task) (id : Int) (h : ∀ t ∈ l, t.id ≠ id) :
    l.find? (fun task => decide (task.id = id)) = none := by
  rw [List.find?_eq_none]
  intro t ht
  simpa using h t ht

theorem handleSubmit_edit (loc : Locale) (date : Int) (st : AppState)
    (hid : st.editid ≠ 0) (hmem : ∃ t ∈ st.tasklist, t.id = st.editid) :
    handleSubmit loc date st =
      { state :=
          { task := "",
            tasklist := st.tasklist.map (fun e =>
              if e.id = st.editid then
                { id := e.id, name := st.task, time := timeString loc date }
              else e),
            editid := 0 },
        thrown := none } := by
  obtain ⟨sel, hsel, hselid⟩ := find?_id_of_mem st.tasklist st.editid hmem
  simp only [handleSubmit, hid, ne_eq, not_false_eq_true, if_true, hsel,
    mapM_updateCallback_some, hselid]

theorem handleSubmit_add_eq (loc : Locale) (date : Int) (st : AppState)
    (hid : st.editid = 0) (htask : st.task ≠ "") :
    handleSubmit loc date st =
      { state :=
          { task := "",
            tasklist := st.tasklist ++
              [{ id := date, name := st.task, time := timeString loc date }],
            editid := 0 },
        thrown := none } := by
  simp [handleSubmit, hid, htask]

theorem handleSubmit_noop_eq (loc : Locale) (date : Int) (st : AppState)
    (hid : st.editid = 0) (htask : st.task = "") :
    handleSubmit loc date st = { state := st, thrown := none } := by
  simp [handleSubmit, hid, htask]

/-- C1 (as amended): for every state, every task `T` of its list with a non-zero id
and every input text `X`, running `handleEdit(T.id)`, typing `X` and submitting at
the instant `date` throws nothing and yields a list of the same length in which
every task whose id differs from `T`'s stands unchanged at its place; when `T` is
the only task of the list with its id, the list is the old one with `T` replaced
in place by the task of the same id, name `X` and time
`localTime(date) localDate(date)`. Afterwards `editid` is 0 and the input text is
empty. -/
theorem editThenSubmit (loc : Locale) (date : Int) (st : AppState) (T : Task) (X : String)
    (hT : T ∈ st.tasklist) (hid : T.id ≠ 0) :
    (handleEdit st T.id).thrown = none ∧
    (handleSubmit loc date (setTask (handleEdit st T.id).state X)).thrown = none ∧
    (handleSubmit loc date (setTask (handleEdit st T.id).state X)).state.editid = 0 ∧
    (handleSubmit loc date (setTask (handleEdit st T.id).state X)).state.task = "" ∧
    (handleSubmit loc date (setTask (handleEdit st T.id).state X)).state.tasklist.length =
      st.tasklist.length ∧
    (∀ (i : Nat) (e : Task), st.tasklist[i]? = some e → e.id ≠ T.id →
      (handleSubmit loc date (setTask (handleEdit st T.id).state X)).state.tasklist[i]?
        = some e) ∧
    (st.tasklist.countP (fun e => decide (e.id = T.id)) = 1 →
      ∃ before after, st.tasklist = before ++ T :: after ∧
        (handleSubmit loc date (setTask (handleEdit st T.id).state X)).state.tasklist =
          before ++
            { id := T.id, name := X,
              time := loc.toLocaleTimeString date ++ " " ++ loc.toLocaleDateString date } ::
            after) := by
  obtain ⟨sel, hsel, _⟩ := find?_id_of_mem st.tasklist T.id ⟨T, hT, rfl⟩
  have hedit : handleEdit st T.id =
      { state := { st with task := sel.name, editid := T.id }, thrown := none } := by
    simp [handleEdit, hsel]
  have hsub := handleSubmit_edit loc date (setTask (handleEdit st T.id).state X)
    (by simpa [hedit, setTask] using hid)
    (by simpa [hedit, setTask] using (⟨T, hT, rfl⟩ : ∃ t ∈ st.tasklist, t.id = T.id))
  have hlist : (handleSubmit loc date (setTask (handleEdit st T.id).state X)).state.tasklist =
      st.tasklist.map (fun e =>
        if e.id = T.id then
          { id := e.id, name := X,
            time := loc.toLocaleTimeString date ++ " " ++ loc.toLocaleDateString date }
        else e) := by
    rw [hsub]
    simp only [hedit, setTask, timeString]
  refine ⟨by rw [hedit], by rw [hsub], by rw [hsub], by rw [hsub], ?_, ?_, ?_⟩
  · rw [hlist, List.length_map]
  · intro i e hi hne
    rw [hlist, List.getElem?_map, hi]
    simp [hne]
  · intro hcount
    obtain ⟨before, after, hsplit⟩ := List.append_of_mem hT
    refine ⟨before, after, hsplit, ?_⟩
    rw [hsplit, List.countP_append, List.countP_cons] at hcount
    simp only [decide_True, if_true] at hcount
    have hb : ∀ e ∈ before, e.id ≠ T.id := by
      have h0 : before.countP (fun e => decide (e.id = T.id)) = 0 := by omega
      intro e he
      simpa using (List.countP_eq_zero.1 h0) e he
    have ha : ∀ e ∈ after, e.id ≠ T.id := by
      have h0 : after.countP (fun e => decide (e.id = T.id)) = 0 := by omega
      intro e he
      simpa using (List.countP_eq_zero.1 h0) e he
    have hkeep : ∀ l : List Task, (∀ e ∈ l, e.id ≠ T.id) →
        l.map (fun e =>
          if e.id = T.id then
            ({ id := e.id, name := X,
               time := loc.toLocaleTimeString date ++ " " ++ loc.toLocaleDateString date } : Task)
          else e) = l := by
      intro l hl
      conv_rhs => rw [← List.map_id l]
      apply List.map_congr_left
      intro e he
      simp [hl e he]
    rw [hlist, hsplit, List.map_append, List.map_cons, hkeep before hb, hkeep after ha]
    simp

/-- Witness for `editThenSubmit`: the second of two tasks is renamed and stamped
with the locale time and date of the submit; the first is kept. -/
theorem editThenSubmit_witness :
    ∃ before after,
      [({ id := 5, name := "Buy milk", time := "t1" } : Task),
        { id := 6, name := "Walk dog", time := "t2" }] =
        before ++ { id := 6, name := "Walk dog", time := "t2" } :: after ∧
      (handleSubmit sampleLocale 9
        (setTask (handleEdit
          { task := "", editid := 0,
            tasklist := [{ id := 5, name := "Buy milk", time := "t1" },
                         { id := 6, name := "Walk dog", time := "t2" }] } 6).state
          "Walk cat")).state.tasklist =
        before ++ { id := 6, name := "Walk cat", time := "10:00:00 AM 11/4/2026" } :: after :=
  (editThenSubmit sampleLocale 9
    { task := "", editid := 0,
      tasklist := [{ id := 5, name := "Buy milk", time := "t1" },
                   { id := 6, name := "Walk dog", time := "t2" }] }
    { id := 6, name := "Walk dog", time := "t2" } "Walk cat" (by decide) (by decide)).2.2.2.2.2.2
    (by decide)

/-- C1 fails as stated in two ways. For a task whose id is 0, `handleEdit(0)`
leaves `editid` at 0, so the submit takes the add branch and the list grows by
one task. For a list in which another task shares the id of `T`, that other
task does not equal its counterpart afterwards. -/
theorem editThenSubmit_zero_id_counterexample :
    ((handleEdit { task := "", tasklist := [{ id := 0, name := "a", time := "t" }], editid := 0 }
        0).thrown = none ∧
      ¬ ((handleSubmit sampleLocale 7
          (setTask (handleEdit
            { task := "", tasklist := [{ id := 0, name := "a", time := "t" }], editid := 0 }
            0).state "b")).state.tasklist.length
        = [({ id := 0, name := "a", time := "t" } : Task)].length)) ∧
    ¬ ((handleSubmit sampleLocale 7
        (setTask (handleEdit
          { task := "", editid := 0,
            tasklist := [{ id := 5, name := "first", time := "t1" },
                         { id := 6, name := "x", time := "t2" },
                         { id := 5, name := "second", time := "t3" }] }
          5).state "new")).state.tasklist[2]?
      = some { id := 5, name := "second", time := "t3" }) := by
  decide

/-- C2 (as amended): `handleDelete(id)` throws nothing, touches neither the input
text nor `editid`, and yields a list with no task of that id in which the other
tasks appear unchanged, as often as before and in their original relative order.
The length decreases by the number of tasks carrying that id, which is exactly 1
when the ids of the list are pairwise distinct and one of them is `id`; when no
task carries `id` the list is unchanged. -/
theorem handleDelete_spec (st : AppState) (id : Int) :
    (handleDelete st id).thrown = none ∧
    (handleDelete st id).state.task = st.task ∧
    (handleDelete st id).state.editid = st.editid ∧
    (∀ t ∈ (handleDelete st id).state.tasklist, t.id ≠ id) ∧
    (handleDelete st id).state.tasklist.Sublist st.tasklist ∧
    (∀ t : Task, t.id ≠ id →
      (handleDelete st id).state.tasklist.count t = st.tasklist.count t) ∧
    (handleDelete st id).state.tasklist.length +
      st.tasklist.countP (fun t => decide (t.id = id)) = st.tasklist.length ∧
    ((st.tasklist.map (fun t => t.id)).Nodup → (∃ t ∈ st.tasklist, t.id = id) →
      (handleDelete st id).state.tasklist.length + 1 = st.tasklist.length) ∧
    ((∀ t ∈ st.tasklist, t.id ≠ id) → (handleDelete st id).state.tasklist = st.tasklist) := by
  have hlen : ∀ l : List Task,
      (l.filter (fun task => decide (task.id ≠ id))).length +
        l.countP (fun t => decide (t.id = id)) = l.length := by
    intro l
    induction l with
    | nil => rfl
    | cons a l ih =>
      by_cases h : a.id = id
      · simp [List.filter_cons, List.countP_cons, h] at ih ⊢; omega
      · simp [List.filter_cons, List.countP_cons, h] at ih ⊢; omega
  refine ⟨rfl, rfl, rfl, ?_, ?_, ?_, hlen st.tasklist, ?_, ?_⟩
  · intro t ht
    simpa [handleDelete] using (List.mem_filter.1 ht).2
  · exact List.filter_sublist _
  · intro t ht
    simp only [handleDelete]
    rw [List.count_filter]
    simpa using ht
  · intro hnd hmem
    have h1 : st.tasklist.countP (fun t => decide (t.id = id)) = 1 := by
      have hc : st.tasklist.countP (fun t => decide (t.id = id)) =
          (st.tasklist.map (fun t => t.id)).count id := by
        rw [List.count, List.countP_map]
        congr 1
      rw [hc]
      apply List.count_eq_one_of_mem hnd
      obtain ⟨t, ht, hid⟩ := hmem
      exact List.mem_map.2 ⟨t, ht, hid⟩
    have := hlen st.tasklist
    simp only [handleDelete]
    omega
  · intro h
    simp only [handleDelete]
    rw [List.filter_eq_self]
    intro t ht
    simpa using h t ht

/-- C2 fails as stated on a list in which two tasks share an id, such as the one
two adds at the same clock reading produce: one delete removes both. -/
theorem handleDelete_duplicate_counterexample :
    (addOp sampleLocale (addOp sampleLocale initialState "a" 5).state "b" 5).state.tasklist
      = [{ id := 5, name := "a", time := "10:00:00 AM 11/4/2026" },
         { id := 5, name := "b", time := "10:00:00 AM 11/4/2026" }] ∧
    ¬ ((handleDelete
          (addOp sampleLocale (addOp sampleLocale initialState "a" 5).state "b" 5).state
          5).state.tasklist.length + 1
        = (addOp sampleLocale (addOp sampleLocale initialState "a" 5).state "b"
            5).state.tasklist.length) := by
  decide

/-- C3: with no edit selection and a non-empty input text, `handleSubmit` at the
instant `date` throws nothing and yields exactly the old list followed by the one
new task `{id: date, name: task, time: localTime(date) localDate(date)}`; the old
tasks are kept unchanged and in order, the input text is reset and `editid`
stays 0. -/
theorem handleSubmit_add (loc : Locale) (date : Int) (st : AppState)
    (hid : st.editid = 0) (htask : st.task ≠ "") :
    (handleSubmit loc date st).thrown = none ∧
    (handleSubmit loc date st).state.tasklist =
      st.tasklist ++
        [{ id := date, name := st.task,
           time := loc.toLocaleTimeString date ++ " " ++ loc.toLocaleDateString date }] ∧
    (handleSubmit loc date st).state.tasklist.take st.tasklist.length = st.tasklist ∧
    (handleSubmit loc date st).state.task = "" ∧
    (handleSubmit loc date st).state.editid = 0 := by
  rw [handleSubmit_add_eq loc date st hid htask]
  exact ⟨rfl, rfl, by simp, rfl, rfl⟩

/-- Witness for `handleSubmit_add`: a second task is appended to a one-task list,
with the clock reading as id and the locale time and date as time. -/
theorem handleSubmit_add_witness :
    (handleSubmit sampleLocale 6
      { task := "Walk dog", editid := 0,
        tasklist := [{ id := 5, name := "Buy milk", time := "t1" }] }).state.tasklist =
      [{ id := 5, name := "Buy milk", time := "t1" },
       { id := 6, name := "Walk dog", time := "10:00:00 AM 11/4/2026" }] :=
  (handleSubmit_add sampleLocale 6
    { task := "Walk dog", editid := 0,
      tasklist := [{ id := 5, name := "Buy milk", time := "t1" }] } rfl (by decide)).2.1

theorem runAdds_spec (loc : Locale) (ops : List (String × Int)) :
    ∀ st : AppState, st.editid = 0 →
    ∃ final, runAdds loc st ops = some final ∧ final.editid = 0 ∧
      final.tasklist.map (fun t => t.id) =
        st.tasklist.map (fun t => t.id) ++
          (ops.filter (fun op => decide (op.1 ≠ ""))).map (fun op => op.2) := by
  induction ops with
  | nil => intro st h; exact ⟨st, rfl, h, by simp⟩
  | cons op ops ih =>
    intro st h
    obtain ⟨text, date⟩ := op
    by_cases htext : text = ""
    · have hop : addOp loc st text date = { state := setTask st text, thrown := none } :=
        handleSubmit_noop_eq loc date (setTask st text) h htext
      obtain ⟨final, hrun, hed, hids⟩ := ih (setTask st text) h
      refine ⟨final, ?_, hed, ?_⟩
      · simp only [runAdds, hop]; exact hrun
      · simpa [htext, setTask] using hids
    · have hop := handleSubmit_add_eq loc date (setTask st text) h htext
      obtain ⟨final, hrun, hed, hids⟩ := ih (addOp loc st text date).state (by
        simp only [addOp]; rw [hop])
      refine ⟨final, ?_, hed, ?_⟩
      · simp only [runAdds]
        have : (addOp loc st text date).thrown = none := by simp only [addOp]; rw [hop]
        rw [this]; exact hrun
      · rw [hids]
        simp only [addOp]
        rw [hop]
        simp [htext, setTask]

/-- C4 (as amended): every sequence of add operations from the initial state runs
without exception; the resulting list has as many tasks as there were adds with
a non-empty input text, the ids of its tasks are the clock readings of those
adds, in order, and they are pairwise distinct whenever those clock readings
are pairwise distinct. -/
theorem runAdds_length_ids (loc : Locale) (ops : List (String × Int)) :
    ∃ final, runAdds loc initialState ops = some final ∧
      final.tasklist.length = (ops.filter (fun op => decide (op.1 ≠ ""))).length ∧
      final.tasklist.map (fun t => t.id) =
        (ops.filter (fun op => decide (op.1 ≠ ""))).map (fun op => op.2) ∧
      (((ops.filter (fun op => decide (op.1 ≠ ""))).map (fun op => op.2)).Nodup →
        (final.tasklist.map (fun t => t.id)).Nodup) := by
  obtain ⟨final, hrun, _, hids⟩ := runAdds_spec loc ops initialState rfl
  have hids2 : final.tasklist.map (fun t => t.id) =
      (ops.filter (fun op => decide (op.1 ≠ ""))).map (fun op => op.2) := by
    simpa [initialState] using hids
  refine ⟨final, hrun, ?_, hids2, fun h => hids2 ▸ h⟩
  have := congrArg List.length hids2
  simpa using this

/-- C4 fails as stated when two adds read the same clock value: both tasks get
the same id. -/
theorem runAdds_same_instant_counterexample :
    ∃ final, runAdds sampleLocale initialState [("a", 5), ("b", 5)] = some final ∧
      ¬ (final.tasklist.map (fun t => t.id)).Nodup :=
  ⟨_, rfl, by decide⟩

/-- C5: with an empty input text and no edit selection, `handleSubmit` throws
nothing and leaves the task list, the edit selection and the input text as they
were. -/
theorem handleSubmit_empty_noop (loc : Locale) (date : Int) (st : AppState)
    (htask : st.task = "") (hid : st.editid = 0) :
    (handleSubmit loc date st).thrown = none ∧
    (handleSubmit loc date st).state.tasklist = st.tasklist ∧
    (handleSubmit loc date st).state.editid = st.editid ∧
    (handleSubmit loc date st).state.task = st.task := by
  rw [handleSubmit_noop_eq loc date st hid htask]
  exact ⟨rfl, rfl, rfl, rfl⟩

/-- Witness for `handleSubmit_empty_noop`: submitting nothing on a one-task list. -/
theorem handleSubmit_empty_noop_witness :
    (handleSubmit sampleLocale 6
      { task := "", editid := 0,
        tasklist := [{ id := 5, name := "Buy milk", time := "t1" }] }).state.tasklist =
      [{ id := 5, name := "Buy milk", time := "t1" }] :=
  (handleSubmit_empty_noop sampleLocale 6
    { task := "", editid := 0,
      tasklist := [{ id := 5, name := "Buy milk", time := "t1" }] } rfl rfl).2.1

/-- C6: `handleEdit(id)` completes without exception exactly when the list holds a
task with that id. Then the input text becomes the name of the first such task,
`editid` becomes `id` and the list is unchanged. Otherwise it throws a
`TypeError` and leaves input text, `editid` and list unchanged. -/
theorem handleEdit_spec (st : AppState) (id : Int) :
    ((handleEdit st id).thrown = none ↔ ∃ t ∈ st.tasklist, t.id = id) ∧
    ((∃ t ∈ st.tasklist, t.id = id) →
      ∃ pre t post, st.tasklist = pre ++ t :: post ∧ (∀ u ∈ pre, u.id ≠ id) ∧ t.id = id ∧
        handleEdit st id =
          { state := { task := t.name, tasklist := st.tasklist, editid := id },
            thrown := none }) ∧
    ((∀ t ∈ st.tasklist, t.id ≠ id) →
      handleEdit st id = { state := st, thrown := some JsError.TypeError }) := by
  have hnone : (∀ t ∈ st.tasklist, t.id ≠ id) →
      handleEdit st id = { state := st, thrown := some JsError.TypeError } := by
    intro h
    simp [handleEdit, find?_id_none st.tasklist id h]
  have hsome : (∃ t ∈ st.tasklist, t.id = id) →
      ∃ pre t post, st.tasklist = pre ++ t :: post ∧ (∀ u ∈ pre, u.id ≠ id) ∧ t.id = id ∧
        handleEdit st id =
          { state := { task := t.name, tasklist := st.tasklist, editid := id },
            thrown := none } := by
    intro h
    obtain ⟨sel, hsel, hid⟩ := find?_id_of_mem st.tasklist id h
    obtain ⟨_, pre, post, hsplit, hpre⟩ := List.find?_eq_some.1 hsel
    refine ⟨pre, sel, post, hsplit, ?_, hid, by simp [handleEdit, hsel]⟩
    intro u hu
    simpa using hpre u hu
  refine ⟨⟨?_, ?_⟩, hsome, hnone⟩
  · intro hthrown
    by_contra hne
    have hall : ∀ t ∈ st.tasklist, t.id ≠ id := fun t ht hid => hne ⟨t, ht, hid⟩
    rw [hnone hall] at hthrown
    exact absurd hthrown (by simp)
  · intro h
    obtain ⟨_, _, _, _, _, _, heq⟩ := hsome h
    rw [heq]

/-! ## Persistence -/

theorem initialTasklist_persist (storage : Storage) (tasklist : List Task) :
    initialTasklist (persistTasklist storage tasklist) = some (tasklistToJS tasklist) := by
  have h : parseItem ((persistTasklist storage tasklist).getItem "tasklist")
      = some (tasklistToJS tasklist) := by
    simp only [persistTasklist, Storage.getItem, Storage.setItem, parseItem, if_true]
    exact JSON_parse_stringify_tasklist tasklist
  rw [initialTasklist, h]
  simp [tasklistToJS, JSValue.truthy]

theorem initialTheme_persist (storage : Storage) (v : String) :
    initialTheme (persistTheme storage (JSValue.str v)) =
      some (if v = "" then JSValue.str "medium" else JSValue.str v) := by
  have h : parseItem ((persistTheme storage (JSValue.str v)).getItem "theme")
      = some (JSValue.str v) := by
    simp only [persistTheme, Storage.getItem, Storage.setItem, parseItem, if_true]
    exact JSON_parse_stringify_str v
  rw [initialTheme, h]
  by_cases hv : v = "" <;> simp [JSValue.truthy, hv]

/-- C7 (as amended): for every non-empty theme string `v`, `setTheme(v)` makes `v`
the theme, writes `JSON.stringify(v)` to the slot `theme`, and a restart, which
recomputes the initial theme as `JSON.parse(slot) || "medium"`, yields `v` again. -/
theorem theme_persistence (storage : Storage) (v : String) (hv : v ≠ "") :
    (setTheme storage v).1 = JSValue.str v ∧
    (setTheme storage v).2.getItem "theme" = some (JSON.stringify (JSValue.str v)) ∧
    initialTheme (setTheme storage v).2 = some (JSValue.str v) := by
  refine ⟨rfl, by simp [setTheme, persistTheme, Storage.getItem, Storage.setItem], ?_⟩
  simp only [setTheme]
  rw [initialTheme_persist, if_neg hv]

/-- Witness for `theme_persistence`: the theme `dark` survives a restart. -/
theorem theme_persistence_witness :
    initialTheme (setTheme emptyStorage "dark").2 = some (JSValue.str "dark") :=
  (theme_persistence emptyStorage "dark" (by decide)).2.2

/-- C7 fails as stated for the empty theme string: the parsed value is falsy, so
the restart yields the default `medium`. -/
theorem theme_empty_counterexample :
    (setTheme emptyStorage "").2.getItem "theme" = some (String.mk [dquote, dquote]) ∧
    initialTheme (setTheme emptyStorage "").2 = some (JSValue.str "medium") ∧
    ¬ (initialTheme (setTheme emptyStorage "").2 = some (JSValue.str "")) := by
  refine ⟨rfl, rfl, ?_⟩
  have h : initialTheme (setTheme emptyStorage "").2 = some (JSValue.str "medium") := rfl
  rw [h]
  simp

/-- C8: for every task list, in particular every one built through add, edit and
delete and the empty one, writing `JSON.stringify(tasklist)` to the slot
`tasklist` and recomputing the initial state as `JSON.parse(slot) || []` yields
the array of the same tasks: same length, same order, and the same `id`, `name`
and `time` in each. -/
theorem tasklist_roundtrip (storage : Storage) (tasklist : List Task) :
    initialTasklist (persistTasklist storage tasklist) = some (tasklistToJS tasklist) ∧
    (∀ other : List Task,
      initialTasklist (persistTasklist storage tasklist) = some (tasklistToJS other) →
      other = tasklist) := by
  refine ⟨initialTasklist_persist storage tasklist, ?_⟩
  intro other h
  rw [initialTasklist_persist] at h
  exact (tasklistToJS_injective (Option.some.inj h)).symm

/-! ## Edit selection -/

theorem handleSubmit_stale (loc : Locale) (date : Int) (st : AppState)
    (hid : st.editid ≠ 0) (hnone : ∀ t ∈ st.tasklist, t.id ≠ st.editid)
    (hne : st.tasklist ≠ []) :
    handleSubmit loc date st = { state := st, thrown := some JsError.TypeError } := by
  obtain ⟨e, l, hl⟩ := List.exists_cons_of_ne_nil hne
  have hfind := find?_id_none st.tasklist st.editid hnone
  simp only [handleSubmit, hid, ne_eq, not_false_eq_true, if_true, hfind]
  rw [hl, mapM_updateCallback_none]

/-- C9 is broken by `handleDelete`: after two adds, `handleEdit(5)` and
`handleDelete(5)` the state is reachable and has `editid = 5` while no task of
the list has id 5; the next submit then throws a `TypeError`. -/
theorem staleSelection_after_delete :
    Reachable sampleLocale staleSelectionState ∧
    staleSelectionState.editid = 5 ∧
    staleSelectionState.tasklist = [{ id := 6, name := "b", time := "10:00:00 AM 11/4/2026" }] ∧
    (∀ t ∈ staleSelectionState.tasklist, t.id ≠ staleSelectionState.editid) ∧
    handleSubmit sampleLocale 7 (setTask staleSelectionState "c") =
      { state := setTask staleSelectionState "c", thrown := some JsError.TypeError } := by
  refine ⟨?_, by decide, by decide, by decide, ?_⟩
  · exact Reachable.delete 5 (Reachable.edit 5
      (Reachable.submit 6 (Reachable.input "b"
        (Reachable.submit 5 (Reachable.input "a" Reachable.init)))))
  · exact handleSubmit_stale sampleLocale 7 (setTask staleSelectionState "c")
      (by decide) (by decide) (by decide)

/-- C10: when `editid` is non-zero and carried by a task of the list, `handleSubmit`
with an empty input text still rewrites the list: every task whose id is
`editid` gets the empty name and the time `localTime(date) localDate(date)` of the
submit, the others are kept. The new list holds a task with an empty name and is
reachable if the old state was; the add branch, by contrast, never puts a task
with an empty name into the list. -/
theorem handleSubmit_edit_empty_name (loc : Locale) (date : Int) (st : AppState)
    (hid : st.editid ≠ 0) (hmem : ∃ t ∈ st.tasklist, t.id = st.editid)
    (htask : st.task = "") :
    handleSubmit loc date st =
      { state :=
          { task := "",
            tasklist := st.tasklist.map (fun e =>
              if e.id = st.editid then
                { id := e.id, name := "",
                  time := loc.toLocaleTimeString date ++ " " ++ loc.toLocaleDateString date }
              else e),
            editid := 0 },
        thrown := none } ∧
    (∃ t ∈ (handleSubmit loc date st).state.tasklist,
      t.id = st.editid ∧ t.name = "" ∧
      t.time = loc.toLocaleTimeString date ++ " " ++ loc.toLocaleDateString date) ∧
    (Reachable loc st → Reachable loc (handleSubmit loc date st).state) ∧
    (∀ (d : Int) (s : AppState), s.editid = 0 →
      ∀ t ∈ (handleSubmit loc d s).state.tasklist, t ∉ s.tasklist → t.name ≠ "") := by
  have heq := handleSubmit_edit loc date st hid hmem
  rw [htask] at heq
  simp only [timeString] at heq
  refine ⟨heq, ?_, Reachable.submit date, ?_⟩
  · obtain ⟨t, ht, htid⟩ := hmem
    rw [heq]
    exact ⟨{ id := t.id, name := "",
             time := loc.toLocaleTimeString date ++ " " ++ loc.toLocaleDateString date },
      List.mem_map.2 ⟨t, ht, by simp [htid]⟩, htid, rfl, rfl⟩
  · intro d s hs t ht hnot
    by_cases hempty : s.task = ""
    · rw [handleSubmit_noop_eq loc d s hs hempty] at ht
      exact absurd ht hnot
    · rw [handleSubmit_add_eq loc d s hs hempty] at ht
      rcases List.mem_append.1 ht with h | h
      · exact absurd h hnot
      · simp only [List.mem_singleton] at h
        rw [h]
        exact hempty

/-- Witness for `handleSubmit_edit_empty_name`: add a task, select it, clear the
input field and submit; the reachable result holds the task with an empty name
and the locale time and date of the second submit. -/
theorem handleSubmit_edit_empty_name_witness :
    Reachable sampleLocale (handleSubmit sampleLocale 6 clearedEditState).state ∧
    (handleSubmit sampleLocale 6 clearedEditState).state.tasklist =
      [{ id := 5, name := "", time := "10:00:00 AM 11/4/2026" }] := by
  have h := handleSubmit_edit_empty_name sampleLocale 6 clearedEditState
    (by decide) (by decide) (by decide)
  refine ⟨h.2.2.1 (Reachable.input "" (Reachable.edit 5
    (Reachable.submit 5 (Reachable.input "a" Reachable.init)))), ?_⟩
  rw [h.1]
  decide

end Taskmate
